import Mathlib

/-!
# GeoContext MCP server — verification of the geospatial engine

A shallow embedding of the TypeScript sources of the geocontext-mcp-server
repository, together with proofs about the embedded operations.

Conventions of the embedding:
* JavaScript numbers are modelled as rationals (`ℚ`); machine-float rounding
  is below the granularity of every property treated here.
* A JavaScript `Map` is modelled as an association list.  `Map.set` replaces
  the value in place when the key exists and appends otherwise, `Map.delete`
  removes the (unique) entry with the key, `Map.size` is the list length —
  exactly the observable semantics of the ECMAScript `Map`.
* The RBush rectangle tree of `spatial-index.service.ts` is modelled as the
  list of its stored items.  For working sets up to the RBush node capacity
  (nine entries) the whole tree is a single leaf, so `insert` appends and
  `remove(item, equalsFn)` deletes the first entry matching `equalsFn`;
  this is the exact library behaviour on every concrete state used below.
* The turf.js geometry module (geodesic distance, geodesic buffer boxes) is
  an external collaborator; following §9 of the design notes it is treated
  as a pure-function module, so the spatial-index definitions are
  parametrised by a distance function `dist` and a buffer-box function
  `bufferBox`.  Theorems assume only the module's documented contract: the
  bounding box of a buffer of radius `r` around `c` covers every point
  within distance `r` of `c`.
-/

namespace GeoContext

/-- `Location` from `types/index.ts`: `{ lat, lng }`. -/
structure Location where
  lat : ℚ
  lng : ℚ
deriving Repr, DecidableEq

/-- `GeoPin` from `types/index.ts`, restricted to the fields the spatial
engine reads: `id`, `location` and activation `radius`.  The free-form
payload and provenance metadata are never inspected by the indexed
operations and are omitted. -/
structure GeoPin where
  id : String
  location : Location
  radius : ℚ
deriving Repr, DecidableEq

/-! ## JavaScript `Map` as an association list -/

/-- `Map.prototype.get`: value of the first (unique) entry with the key. -/
def mapGet {β : Type} (m : List (String × β)) (k : String) : Option β :=
  match m.find? (fun e => e.1 == k) with
  | some e => some e.2
  | none => none

/-- `Map.prototype.set`: replace in place if the key exists, else append. -/
def mapSet {β : Type} (m : List (String × β)) (k : String) (v : β) :
    List (String × β) :=
  match m with
  | [] => [(k, v)]
  | e :: rest => if e.1 == k then (k, v) :: rest else e :: mapSet rest k v

/-- `Map.prototype.delete`: drop the first entry with the key. -/
def mapDelete {β : Type} (m : List (String × β)) (k : String) :
    List (String × β) :=
  m.eraseP (fun e => e.1 == k)

/-! ## Spatial index (`spatial-index.service.ts`) -/

/-- An axis-aligned bounding box, `RBush.BBox` (x = longitude, y = latitude,
as in turf's `[lng, lat]` coordinate order). -/
structure Box where
  minX : ℚ
  minY : ℚ
  maxX : ℚ
  maxY : ℚ
deriving Repr, DecidableEq

/-- `SpatialItem`: a stored bounding box together with its pin. -/
structure SpatialItem where
  box : Box
  pin : GeoPin
deriving Repr, DecidableEq

/-- The mutable state of `SpatialIndexService`: the RBush tree (as its item
list) and the `pinMap` id-lookup table. -/
structure SpatialIndexState where
  items : List SpatialItem
  pinMap : List (String × GeoPin)
deriving Repr, DecidableEq

/-- The freshly constructed service: empty tree, empty map. -/
def SpatialIndexState.empty : SpatialIndexState := ⟨[], []⟩

/-- `getStats()`: `{ totalPins: pinMap.size, indexSize: index.all().length }`. -/
structure Stats where
  totalPins : ℕ
  indexSize : ℕ
deriving Repr, DecidableEq

def getStats (s : SpatialIndexState) : Stats :=
  { totalPins := s.pinMap.length, indexSize := s.items.length }

/-- RBush `intersects` between two boxes. -/
def boxIntersects (a b : Box) : Bool :=
  decide (a.minX ≤ b.maxX) && decide (b.minX ≤ a.maxX) &&
  decide (a.minY ≤ b.maxY) && decide (b.minY ≤ a.maxY)

/-- A location lies inside a box. -/
def InBox (b : Box) (l : Location) : Prop :=
  b.minX ≤ l.lng ∧ l.lng ≤ b.maxX ∧ b.minY ≤ l.lat ∧ l.lat ≤ b.maxY

instance (b : Box) (l : Location) : Decidable (InBox b l) := by
  unfold InBox; infer_instance

section SpatialOps

variable (bufferBox : Location → ℚ → Box) (dist : Location → Location → ℚ)

/-- `addPin`: compute the buffered bounding box of the pin, insert the item
into the tree and record the pin by id in `pinMap`. -/
def addPin (s : SpatialIndexState) (pin : GeoPin) : SpatialIndexState :=
  let box := bufferBox pin.location pin.radius
  { items := s.items ++ [⟨box, pin⟩]
    pinMap := mapSet s.pinMap pin.id pin }

/-- `removePin`: look the pin up by id; if absent return `false`.  Otherwise
recompute its bounding box (the box guides the tree descent but plays no
role in a single-leaf tree) and remove the first tree entry whose pin id
equals the looked-up pin's id — RBush `remove` with the
`(a, b) => a.pin.id === b.pin.id` equality function — then delete the map
entry and return `true`. -/
def removePin (s : SpatialIndexState) (pinId : String) :
    Bool × SpatialIndexState :=
  match mapGet s.pinMap pinId with
  | none => (false, s)
  | some pin =>
      let _box := bufferBox pin.location pin.radius
      (true,
        { items := s.items.eraseP (fun it => it.pin.id == pin.id)
          pinMap := mapDelete s.pinMap pinId })

/-- Ordering used by `queryByRadius`'s `.sort((a, b) => a.distance - b.distance)`:
compare the computed distances attached to the pins. -/
def distLe (a b : GeoPin × ℚ) : Prop := a.2 ≤ b.2

instance : DecidableRel distLe := fun a b => by unfold distLe; infer_instance

instance : IsTotal (GeoPin × ℚ) distLe := ⟨fun a b => le_total a.2 b.2⟩

instance : IsTrans (GeoPin × ℚ) distLe := ⟨fun _ _ _ h h' => le_trans h h'⟩

/-- `queryByRadius`: buffer the query location, collect the tree candidates
whose stored box intersects the search box, attach the exact distance to
each candidate, keep those within the radius, sort ascending by distance
and return the pins. -/
def queryByRadius (s : SpatialIndexState) (location : Location)
    (radiusMeters : ℚ) : List GeoPin :=
  let box := bufferBox location radiusMeters
  let candidates := s.items.filter (fun it => boxIntersects it.box box)
  let withDist := candidates.map (fun it => (it.pin, dist location it.pin.location))
  let filtered := withDist.filter (fun pr => decide (pr.2 ≤ radiusMeters))
  (List.insertionSort distLe filtered).map (fun pr => pr.1)

end SpatialOps

/-! A concrete geometry module used to instantiate the parametric theorems:
Chebyshev (maximum-coordinate) distance with its exact square buffer box.
It satisfies the coverage contract assumed of turf's geometry. -/

/-- Chebyshev distance between two locations. -/
def distCheb (a b : Location) : ℚ := max |a.lat - b.lat| |a.lng - b.lng|

/-- The square box of radius `r` around `c`; the exact bounding box of the
Chebyshev ball. -/
def boxCheb (c : Location) (r : ℚ) : Box :=
  ⟨c.lng - r, c.lat - r, c.lng + r, c.lat + r⟩

/-- The Chebyshev geometry satisfies the buffer-coverage contract. -/
theorem distCheb_cover (c p : Location) (r : ℚ) (h : distCheb c p ≤ r) :
    InBox (boxCheb c r) p := by
  have hlat : |c.lat - p.lat| ≤ r := le_trans (le_max_left _ _) h
  have hlng : |c.lng - p.lng| ≤ r := le_trans (le_max_right _ _) h
  rw [abs_le] at hlat hlng
  refine ⟨?_, ?_, ?_, ?_⟩ <;> simp [boxCheb] <;> linarith [hlat.1, hlat.2, hlng.1, hlng.2]

/-! ## Association-list lemmas for the `Map` model -/

theorem mapGet_cons {β : Type} (e : String × β) (rest : List (String × β))
    (k : String) :
    mapGet (e :: rest) k = if e.1 == k then some e.2 else mapGet rest k := by
  by_cases h : e.1 == k <;> simp [mapGet, List.find?_cons, h]

theorem mapSet_eq_append {β : Type} {m : List (String × β)} {k : String}
    (v : β) (h : mapGet m k = none) : mapSet m k v = m ++ [(k, v)] := by
  induction m with
  | nil => rfl
  | cons e rest ih =>
      rw [mapGet_cons] at h
      by_cases he : e.1 == k
      · simp [he] at h
      · simp [he] at h
        simp [mapSet, he, ih h]

theorem mapGet_mapSet_self {β : Type} (m : List (String × β)) (k : String)
    (v : β) : mapGet (mapSet m k v) k = some v := by
  induction m with
  | nil => simp [mapSet, mapGet, List.find?_cons]
  | cons e rest ih =>
      by_cases he : e.1 == k
      · simp [mapSet, he, mapGet_cons]
      · simp [mapSet, he, mapGet_cons, ih]

theorem length_mapDelete_mapSet {β : Type} {m : List (String × β)}
    {k : String} (v : β) (h : mapGet m k = none) :
    (mapDelete (mapSet m k v) k).length = m.length := by
  induction m with
  | nil => simp [mapSet, mapDelete, List.eraseP_cons]
  | cons e rest ih =>
      rw [mapGet_cons] at h
      by_cases he : e.1 == k
      · simp [he] at h
      · simp [he] at h
        simp [mapSet, he, mapDelete, List.eraseP_cons]
        simpa [mapDelete] using ih h

/-! ## Claim C7 — insert-then-remove restores `stats().totalPins` -/

/-- A concrete pin used in counterexamples and witnesses. -/
def pinA : GeoPin := ⟨"p", ⟨0, 0⟩, 100⟩

/-- A second pin sharing `pinA`'s id but at another location. -/
def pinB : GeoPin := ⟨"p", ⟨1, 1⟩, 50⟩

/-- A pin with a distinct id. -/
def pinC : GeoPin := ⟨"q", ⟨2, 2⟩, 80⟩

/-- A state already holding `pinA`. -/
def stateA : SpatialIndexState := addPin boxCheb SpatialIndexState.empty pinA

/-- C7 fails as stated: if the inserted id is already present, insert
overwrites the map entry (size unchanged) while adding a second tree entry,
so the subsequent remove drops `totalPins` one below its pre-insert value. -/
theorem removePin_addPin_totalPins_cex :
    ¬ ((getStats ((removePin boxCheb (addPin boxCheb stateA pinB) pinB.id).2)).totalPins
        = (getStats stateA).totalPins) := by decide

/-- C7 as amended: for a marker whose id is *not already present*, insert
followed by remove of that id restores `stats().totalPins`; and removing an
id that is not present returns `false` with the state (hence `stats()`)
unchanged. -/
theorem removePin_addPin_totalPins (bufferBox : Location → ℚ → Box)
    (s : SpatialIndexState) (pin : GeoPin)
    (hfresh : mapGet s.pinMap pin.id = none) :
    (getStats ((removePin bufferBox (addPin bufferBox s pin) pin.id).2)).totalPins
      = (getStats s).totalPins
    ∧ removePin bufferBox s pin.id = (false, s) := by
  constructor
  · have hget : mapGet (mapSet s.pinMap pin.id pin) pin.id = some pin :=
      mapGet_mapSet_self _ _ _
    simp only [removePin, addPin, hget, getStats]
    exact length_mapDelete_mapSet pin hfresh
  · simp [removePin, hfresh]

/-- Witness for the amended C7 at a concrete fresh id. -/
theorem removePin_addPin_totalPins_wit :
    (getStats ((removePin boxCheb (addPin boxCheb stateA pinC) pinC.id).2)).totalPins
      = (getStats stateA).totalPins
    ∧ removePin boxCheb stateA pinC.id = (false, stateA) :=
  removePin_addPin_totalPins boxCheb stateA pinC (by decide)

/-! ## Claim C8 — `totalPins` matches `indexSize` -/

/-- Eliminate a successful `mapGet`: the list holds an entry with that key
and value. -/
theorem mapGet_eq_some_elim {β : Type} {m : List (String × β)} {k : String}
    {v : β} (h : mapGet m k = some v) : ∃ e ∈ m, e.1 = k ∧ e.2 = v := by
  unfold mapGet at h
  cases hf : m.find? (fun e => e.1 == k) with
  | none => rw [hf] at h; cases h
  | some e =>
      rw [hf] at h
      refine ⟨e, List.mem_of_find?_eq_some hf, ?_, ?_⟩
      · have hpe := List.find?_some hf
        simpa using hpe
      · cases h; rfl

/-- Erasing by a key predicate commutes with projecting the key. -/
theorem map_eraseP_key {β γ : Type} [DecidableEq γ] (f : β → γ) (a : γ)
    (l : List β) :
    (l.eraseP (fun x => f x == a)).map f = (l.map f).erase a := by
  induction l with
  | nil => rfl
  | cons x rest ih =>
      by_cases h : f x = a
      · simp [List.eraseP_cons, List.erase_cons, h]
      · have hb : (f x == a) = false := by simp [h]
        simp [List.eraseP_cons, List.erase_cons, hb, ih]

/-- The internal consistency of a spatial-index state: the multiset of pin
ids stored in the tree matches the multiset of keys of `pinMap`, and every
map entry stores a pin carrying its own key as id. -/
def SpatialInv (s : SpatialIndexState) : Prop :=
  (s.items.map (fun it => it.pin.id)).Perm (s.pinMap.map (fun e => e.1)) ∧
  ∀ e ∈ s.pinMap, e.2.id = e.1

theorem spatialInv_empty : SpatialInv SpatialIndexState.empty :=
  ⟨List.Perm.refl _, by intro e he; cases he⟩

theorem spatialInv_addPin (bufferBox : Location → ℚ → Box)
    {s : SpatialIndexState} (pin : GeoPin) (hs : SpatialInv s)
    (hfresh : mapGet s.pinMap pin.id = none) :
    SpatialInv (addPin bufferBox s pin) := by
  obtain ⟨hperm, hco⟩ := hs
  constructor
  · simp only [addPin, mapSet_eq_append pin hfresh, List.map_append]
    exact hperm.append (List.Perm.refl _)
  · intro e he
    simp only [addPin, mapSet_eq_append pin hfresh, List.mem_append,
      List.mem_singleton] at he
    rcases he with he | he
    · exact hco e he
    · subst he; rfl

theorem spatialInv_removePin (bufferBox : Location → ℚ → Box)
    {s : SpatialIndexState} (pinId : String) (hs : SpatialInv s) :
    SpatialInv (removePin bufferBox s pinId).2 := by
  obtain ⟨hperm, hco⟩ := hs
  cases hget : mapGet s.pinMap pinId with
  | none => simpa [removePin, hget] using ⟨hperm, hco⟩
  | some pin =>
      obtain ⟨e, hmem, hek, hev⟩ := mapGet_eq_some_elim hget
      have hid : pin.id = pinId := by
        have := hco e hmem
        rw [hev] at this
        rw [this, hek]
      constructor
      · simp only [removePin, hget]
        rw [map_eraseP_key (fun it => it.pin.id) pin.id s.items]
        have h2 : (mapDelete s.pinMap pinId).map (fun e => e.1)
            = (s.pinMap.map (fun e => e.1)).erase pinId := by
          simpa [mapDelete] using
            map_eraseP_key (fun e : String × GeoPin => e.1) pinId s.pinMap
        rw [h2, hid]
        exact hperm.erase pinId
      · intro e' he'
        simp only [removePin, hget] at he'
        exact hco e' ((List.eraseP_sublist s.pinMap).subset he')

/-- An abstract insert/remove operation on the spatial index. -/
inductive SpatialOp where
  | add (pin : GeoPin)
  | rem (pinId : String)
deriving Repr, DecidableEq

/-- Run a sequence of operations against a state. -/
def runOps (bufferBox : Location → ℚ → Box) (s : SpatialIndexState) :
    List SpatialOp → SpatialIndexState
  | [] => s
  | SpatialOp.add p :: rest => runOps bufferBox (addPin bufferBox s p) rest
  | SpatialOp.rem i :: rest => runOps bufferBox (removePin bufferBox s i).2 rest

/-- Every `add` in the sequence carries an id not present at that moment —
the data model's "same identifier not re-inserted" discipline. -/
def freshRun (bufferBox : Location → ℚ → Box) (s : SpatialIndexState) :
    List SpatialOp → Bool
  | [] => true
  | SpatialOp.add p :: rest =>
      (mapGet s.pinMap p.id).isNone
        && freshRun bufferBox (addPin bufferBox s p) rest
  | SpatialOp.rem i :: rest =>
      freshRun bufferBox (removePin bufferBox s i).2 rest

theorem freshRun_inv (bufferBox : Location → ℚ → Box) :
    ∀ (ops : List SpatialOp) (s : SpatialIndexState), SpatialInv s →
      freshRun bufferBox s ops = true → SpatialInv (runOps bufferBox s ops)
  | [], s, hs, _ => hs
  | SpatialOp.add p :: rest, s, hs, h => by
      rw [freshRun, Bool.and_eq_true, Option.isNone_iff_eq_none] at h
      exact freshRun_inv bufferBox rest _
        (spatialInv_addPin bufferBox p hs h.1) h.2
  | SpatialOp.rem i :: rest, s, hs, h => by
      rw [freshRun] at h
      exact freshRun_inv bufferBox rest _
        (spatialInv_removePin bufferBox i hs) h

/-- C8 fails as stated: inserting two pins with the same id (the second
overwrites the map entry but adds a second tree entry) makes
`totalPins = 1` while `indexSize = 2`. -/
theorem stats_counts_match_cex :
    ¬ ((getStats (runOps boxCheb SpatialIndexState.empty
          [SpatialOp.add pinA, SpatialOp.add pinB])).totalPins
        = (getStats (runOps boxCheb SpatialIndexState.empty
          [SpatialOp.add pinA, SpatialOp.add pinB])).indexSize) := by decide

/-- C8 as amended: after every sequence of insert and remove operations in
which no insert re-uses an id currently present, the count of tracked
markers equals the count of tree entries. -/
theorem stats_counts_match (bufferBox : Location → ℚ → Box)
    (ops : List SpatialOp)
    (h : freshRun bufferBox SpatialIndexState.empty ops = true) :
    (getStats (runOps bufferBox SpatialIndexState.empty ops)).totalPins
      = (getStats (runOps bufferBox SpatialIndexState.empty ops)).indexSize := by
  have hinv := freshRun_inv bufferBox ops SpatialIndexState.empty
    spatialInv_empty h
  have hlen := hinv.1.length_eq
  simp only [List.length_map] at hlen
  simp [getStats, hlen]

/-- Witness for the amended C8 on a concrete fresh sequence. -/
theorem stats_counts_match_wit :
    (getStats (runOps boxCheb SpatialIndexState.empty
        [SpatialOp.add pinA, SpatialOp.add pinC, SpatialOp.rem "p",
         SpatialOp.rem "nothere"])).totalPins
      = (getStats (runOps boxCheb SpatialIndexState.empty
        [SpatialOp.add pinA, SpatialOp.add pinC, SpatialOp.rem "p",
         SpatialOp.rem "nothere"])).indexSize :=
  stats_counts_match boxCheb _ (by decide)

/-! ## Claim C9 — removal by identity deletes the marker's tree entry -/

/-- C9 fails as stated: with two tree entries sharing an id (after a
double insert), `removePin` deletes the *first* matching entry — the stale
one — while the entry of the marker currently tracked in `pinMap`
(`pinB`, at location (1, 1)) stays in the tree.  Removal returns `true`
but does not delete "exactly that entry". -/
theorem removePin_identity_cex :
    (removePin boxCheb
        (addPin boxCheb (addPin boxCheb SpatialIndexState.empty pinA) pinB)
        "p").1 = true
    ∧ ((removePin boxCheb
        (addPin boxCheb (addPin boxCheb SpatialIndexState.empty pinA) pinB)
        "p").2).items.map (fun it => it.pin) = [pinB] := by decide

/-- C9 as amended: `removePin` removes the first tree entry whose pin id
matches the looked-up marker's id (identity comparison, not box equality);
the bounding box it recomputes is deterministic and plays no role in the
match, so when the tree holds exactly one entry with that id — the
invariant maintained while ids are unique — removal returns `true` and
deletes exactly that entry, with no false negative from box
recomputation. -/
theorem removePin_identity (bufferBox : Location → ℚ → Box)
    (s : SpatialIndexState) (pinId : String) (pin : GeoPin)
    (l₁ l₂ : List SpatialItem) (it : SpatialItem)
    (hget : mapGet s.pinMap pinId = some pin)
    (hsplit : s.items = l₁ ++ it :: l₂)
    (hit : it.pin.id = pin.id)
    (hl₁ : ∀ x ∈ l₁, ¬ x.pin.id = pin.id) :
    removePin bufferBox s pinId
      = (true, ⟨l₁ ++ l₂, mapDelete s.pinMap pinId⟩) := by
  simp only [removePin, hget, hsplit]
  have h₁ : (l₁ ++ it :: l₂).eraseP (fun x => x.pin.id == pin.id)
      = l₁ ++ (it :: l₂).eraseP (fun x => x.pin.id == pin.id) :=
    List.eraseP_append_right _ (by intro b hb; simpa using hl₁ b hb)
  have h₂ : (it :: l₂).eraseP (fun x => x.pin.id == pin.id) = l₂ :=
    List.eraseP_cons_of_pos (by simpa using hit)
  rw [h₁, h₂]

/-- Witness for the amended C9: a two-pin state with distinct ids; removing
`"q"` deletes exactly `pinC`'s entry. -/
theorem removePin_identity_wit :
    removePin boxCheb
        (addPin boxCheb (addPin boxCheb SpatialIndexState.empty pinA) pinC)
        "q"
      = (true,
          ⟨[⟨boxCheb pinA.location pinA.radius, pinA⟩],
            mapDelete (addPin boxCheb
              (addPin boxCheb SpatialIndexState.empty pinA) pinC).pinMap
              "q"⟩) :=
  removePin_identity boxCheb _ "q" pinC
    [⟨boxCheb pinA.location pinA.radius, pinA⟩] []
    ⟨boxCheb pinC.location pinC.radius, pinC⟩
    (by decide) rfl (by decide) (by decide)

/-! ## Claim C1 — `queryByRadius` is exact and distance-sorted -/

/-- Two boxes sharing a common point intersect. -/
theorem boxIntersects_of_common {a b : Box} {l : Location}
    (ha : InBox a l) (hb : InBox b l) : boxIntersects a b = true := by
  obtain ⟨ha1, ha2, ha3, ha4⟩ := ha
  obtain ⟨hb1, hb2, hb3, hb4⟩ := hb
  simp only [boxIntersects, Bool.and_eq_true, decide_eq_true_eq]
  exact ⟨⟨⟨le_trans ha1 hb2, le_trans hb1 ha2⟩, le_trans ha3 hb4⟩,
    le_trans hb3 ha4⟩

/-- Filtering by a conjunction whose second conjunct is implied by the
first (on members) equals filtering by the first alone. -/
theorem filter_and_of_imp {α : Type} {l : List α} {p q : α → Bool}
    (h : ∀ a ∈ l, q a = true → p a = true) :
    l.filter (fun a => q a && p a) = l.filter q := by
  induction l with
  | nil => rfl
  | cons x rest ih =>
      have ih' := ih (fun a ha => h a (List.mem_cons_of_mem x ha))
      cases hq : q x with
      | false => simp [List.filter_cons, hq, ih']
      | true =>
          have hp := h x (List.mem_cons_self x rest) hq
          simp [List.filter_cons, hq, hp, ih']

/-- C1: assuming the geometry module's contract — the buffer box of radius
`rad` around `c` covers every point within distance `rad` of `c` — and a
well-formed index (every stored box covers its pin's location, as `addPin`
guarantees), `queryByRadius` returns exactly the pins at distance ≤ the
radius (as a permutation of the filtered index) and the output is pairwise
ascending in distance. -/
theorem queryByRadius_spec (bufferBox : Location → ℚ → Box)
    (dist : Location → Location → ℚ) (s : SpatialIndexState)
    (loc : Location) (r : ℚ)
    (hcover : ∀ c p rad, dist c p ≤ rad → InBox (bufferBox c rad) p)
    (hwf : ∀ it ∈ s.items, InBox it.box it.pin.location) :
    (queryByRadius bufferBox dist s loc r).Perm
      ((s.items.filter
          (fun it => decide (dist loc it.pin.location ≤ r))).map
        (fun it => it.pin))
    ∧ (queryByRadius bufferBox dist s loc r).Pairwise
        (fun p q => dist loc p.location ≤ dist loc q.location) := by
  classical
  set box := bufferBox loc r with hbox
  set cands := s.items.filter (fun it => boxIntersects it.box box) with hcands
  set pairfn : SpatialItem → GeoPin × ℚ :=
    fun it => (it.pin, dist loc it.pin.location) with hpairfn
  set filtered := (cands.map pairfn).filter
    (fun pr => decide (pr.2 ≤ r)) with hfiltered
  have hout : queryByRadius bufferBox dist s loc r
      = (List.insertionSort distLe filtered).map (fun pr => pr.1) := rfl
  -- the filtered candidate pairs are the qualifying items, paired
  have hfe : filtered
      = (s.items.filter
          (fun it => decide (dist loc it.pin.location ≤ r))).map pairfn := by
    rw [hfiltered, List.filter_map, List.filter_filter]
    have : ∀ it ∈ s.items,
        decide (dist loc it.pin.location ≤ r) = true →
        boxIntersects it.box box = true := by
      intro it hmem hdist
      rw [decide_eq_true_eq] at hdist
      exact boxIntersects_of_common (hwf it hmem) (hcover loc it.pin.location r hdist)
    congr 1
    exact filter_and_of_imp this
  constructor
  · rw [hout]
    refine ((List.perm_insertionSort distLe filtered).map _).trans ?_
    rw [hfe, List.map_map]
    exact List.Perm.refl _
  · rw [hout]
    have hsorted : (List.insertionSort distLe filtered).Pairwise distLe :=
      List.sorted_insertionSort distLe filtered
    have hmemC : ∀ pr ∈ List.insertionSort distLe filtered,
        pr.2 = dist loc pr.1.location := by
      intro pr hpr
      have : pr ∈ filtered := (List.perm_insertionSort distLe filtered).mem_iff.mp hpr
      rw [hfe] at this
      obtain ⟨it, _, hpt⟩ := List.mem_map.mp this
      rw [← hpt]
    rw [List.pairwise_map]
    exact List.Pairwise.imp_of_mem
      (fun {a b} ha hb hab => by
        have hca := hmemC a ha
        have hcb := hmemC b hb
        unfold distLe at hab
        rw [hca, hcb] at hab
        exact hab)
      hsorted

/-- Pins and state for the C1 witness: one pin at the query point, one
three degrees away, with literal stored boxes covering each location. -/
def wPin1 : GeoPin := ⟨"w1", ⟨0, 0⟩, 5⟩

def wPin2 : GeoPin := ⟨"w2", ⟨0, 3⟩, 5⟩

def wState : SpatialIndexState :=
  ⟨[⟨⟨-1, -1, 1, 1⟩, wPin1⟩, ⟨⟨2, -1, 4, 1⟩, wPin2⟩],
    [("w1", wPin1), ("w2", wPin2)]⟩

/-- Witness for C1, instantiated with the Chebyshev geometry module. -/
theorem queryByRadius_spec_wit :
    (queryByRadius boxCheb distCheb wState ⟨0, 0⟩ 1).Perm
      ((wState.items.filter
          (fun it => decide (distCheb ⟨0, 0⟩ it.pin.location ≤ 1))).map
        (fun it => it.pin))
    ∧ (queryByRadius boxCheb distCheb wState ⟨0, 0⟩ 1).Pairwise
        (fun p q => distCheb ⟨0, 0⟩ p.location ≤ distCheb ⟨0, 0⟩ q.location) :=
  queryByRadius_spec boxCheb distCheb wState ⟨0, 0⟩ 1 distCheb_cover
    (by
      intro it hmem
      simp only [wState, List.mem_cons, List.not_mem_nil, or_false] at hmem
      rcases hmem with h | h <;> (subst h; norm_num [InBox, wPin1, wPin2]))

/-! ## Claim C4 — route-enrichment dedup by 5-decimal rounded coordinates
(`discoverPOIsAlongRoute`, routing.service.ts) -/

/-- The dedup key: `pin.location.lat.toFixed(5) + "," + pin.location.lng.toFixed(5)`,
i.e. both coordinates rounded to five decimal places. -/
def roundKey5 (l : Location) : ℤ × ℤ :=
  (round (l.lat * 100000), round (l.lng * 100000))

/-- The `uniquePins` Map loop: walk the merged list, keep a pin only if its
rounded key has not been seen, remembering seen keys. -/
def dedupGo (seen : List (ℤ × ℤ)) : List GeoPin → List GeoPin
  | [] => []
  | p :: rest =>
      if roundKey5 p.location ∈ seen then dedupGo seen rest
      else p :: dedupGo (roundKey5 p.location :: seen) rest

/-- Merge all per-sample provider results (`results.flat()`) and
deduplicate by rounded coordinate key, keeping first occurrences in
insertion order (`Array.from(uniquePins.values())`). -/
def mergeSampleResults (results : List (List GeoPin)) : List GeoPin :=
  dedupGo [] results.flatten

theorem dedupGo_sound (seen : List (ℤ × ℤ)) (pins : List GeoPin) :
    ∀ r ∈ dedupGo seen pins, r ∈ pins ∧ roundKey5 r.location ∉ seen := by
  induction pins generalizing seen with
  | nil => intro r hr; cases hr
  | cons q rest ih =>
      intro r hr
      by_cases hq : roundKey5 q.location ∈ seen
      · rw [dedupGo, if_pos hq] at hr
        obtain ⟨h1, h2⟩ := ih seen r hr
        exact ⟨List.mem_cons_of_mem q h1, h2⟩
      · rw [dedupGo, if_neg hq] at hr
        rcases List.mem_cons.mp hr with h | h
        · subst h; exact ⟨List.mem_cons_self _ _, hq⟩
        · obtain ⟨h1, h2⟩ := ih _ r h
          exact ⟨List.mem_cons_of_mem q h1,
            fun hmem => h2 (List.mem_cons_of_mem _ hmem)⟩

theorem dedupGo_nodup (seen : List (ℤ × ℤ)) (pins : List GeoPin) :
    ((dedupGo seen pins).map (fun p => roundKey5 p.location)).Nodup := by
  induction pins generalizing seen with
  | nil => exact List.nodup_nil
  | cons q rest ih =>
      by_cases hq : roundKey5 q.location ∈ seen
      · rw [dedupGo, if_pos hq]; exact ih seen
      · rw [dedupGo, if_neg hq]
        rw [List.map_cons, List.nodup_cons]
        refine ⟨?_, ih _⟩
        intro hmem
        obtain ⟨r, hr, hkey⟩ := List.mem_map.mp hmem
        have := (dedupGo_sound _ rest r hr).2
        exact this (hkey ▸ List.mem_cons_self _ _)

theorem dedupGo_covers (seen : List (ℤ × ℤ)) (pins : List GeoPin) :
    ∀ p ∈ pins, roundKey5 p.location ∈ seen ∨
      ∃ r ∈ dedupGo seen pins, roundKey5 r.location = roundKey5 p.location := by
  induction pins generalizing seen with
  | nil => intro p hp; cases hp
  | cons q rest ih =>
      intro p hp
      by_cases hq : roundKey5 q.location ∈ seen
      · rw [dedupGo, if_pos hq]
        rcases List.mem_cons.mp hp with h | h
        · subst h; exact Or.inl hq
        · exact ih seen p h
      · rw [dedupGo, if_neg hq]
        rcases List.mem_cons.mp hp with h | h
        · subst h
          exact Or.inr ⟨p, List.mem_cons_self _ _, rfl⟩
        · rcases ih (roundKey5 q.location :: seen) p h with hin | ⟨r, hr, hkey⟩
          · rcases List.mem_cons.mp hin with heq | hin'
            · exact Or.inr ⟨q, List.mem_cons_self _ _, heq.symm⟩
            · exact Or.inl hin'
          · exact Or.inr ⟨r, List.mem_cons_of_mem q hr, hkey⟩

theorem dedupGo_first (seen : List (ℤ × ℤ)) (pins : List GeoPin) :
    ∀ r ∈ dedupGo seen pins,
      pins.find? (fun q => roundKey5 q.location == roundKey5 r.location)
        = some r := by
  induction pins generalizing seen with
  | nil => intro r hr; cases hr
  | cons q rest ih =>
      intro r hr
      by_cases hq : roundKey5 q.location ∈ seen
      · rw [dedupGo, if_pos hq] at hr
        have hne : roundKey5 q.location ≠ roundKey5 r.location := by
          intro heq
          exact (dedupGo_sound seen rest r hr).2 (heq ▸ hq)
        rw [List.find?_cons_of_neg _ (by simpa using hne)]
        exact ih seen r hr
      · rw [dedupGo, if_neg hq] at hr
        rcases List.mem_cons.mp hr with h | h
        · subst h
          rw [List.find?_cons_of_pos _ (by simp)]
        · have hne : roundKey5 q.location ≠ roundKey5 r.location := by
            intro heq
            exact (dedupGo_sound _ rest r h).2
              (heq ▸ List.mem_cons_self _ _)
          rw [List.find?_cons_of_neg _ (by simpa using hne)]
          exact ih _ r h

/-- C4: merging all per-sample results and deduplicating keeps exactly the
first occurrence of each rounded five-decimal coordinate key: output keys
are pairwise distinct, every merged result has a representative with its
key, and every output pin is the first merged pin carrying its key (so any
later result with equal rounded coordinates is discarded, and one POI seen
at several overlapping sample points yields one marker). -/
theorem mergeSampleResults_dedup (results : List (List GeoPin)) :
    ((mergeSampleResults results).map (fun p => roundKey5 p.location)).Nodup
    ∧ (∀ p ∈ results.flatten, ∃ r ∈ mergeSampleResults results,
        roundKey5 r.location = roundKey5 p.location)
    ∧ (∀ r ∈ mergeSampleResults results,
        results.flatten.find?
          (fun q => roundKey5 q.location == roundKey5 r.location) = some r) := by
  refine ⟨dedupGo_nodup [] _, ?_, dedupGo_first [] _⟩
  intro p hp
  rcases dedupGo_covers [] results.flatten p hp with h | h
  · cases h
  · exact h

/-! ## Claim C5 — sample interval and provider-call count
(`discoverPOIsAlongRoute`, routing.service.ts) -/

/-- `const sampleInterval = Math.min(1000, routeLength / 10)`. -/
def sampleInterval (routeLength : ℚ) : ℚ := min 1000 (routeLength / 10)

/-- `const numSamples = Math.floor(routeLength / sampleInterval)`. -/
def numSamples (routeLength : ℚ) : ℤ := ⌊routeLength / sampleInterval routeLength⌋

/-- The `for (let i = 0; i <= numSamples; i++)` loop issues one provider
call per iteration. -/
def numProviderCalls (routeLength : ℚ) : ℤ := numSamples routeLength + 1

/-- C5 fails as stated: the number of provider calls is *not* bounded
independent of path length — for any candidate bound there is a path
length whose call count exceeds it (one call per kilometre, ever
growing). -/
theorem providerCalls_unbounded_cex :
    ¬ ∃ B : ℤ, ∀ len : ℚ, 0 < len → numProviderCalls len ≤ B := by
  rintro ⟨B, hB⟩
  set k : ℤ := B.toNat + 10 with hk
  have hk10 : (10 : ℤ) ≤ k := by omega
  have hlenpos : (0 : ℚ) < 1000 * (k : ℚ) := by
    have : (0 : ℚ) < (k : ℚ) := by exact_mod_cast lt_of_lt_of_le (by norm_num) hk10
    linarith
  have hmin : sampleInterval (1000 * (k : ℚ)) = 1000 := by
    have h10 : (1000 : ℚ) ≤ 1000 * (k : ℚ) / 10 := by
      have : (10 : ℚ) ≤ (k : ℚ) := by exact_mod_cast hk10
      linarith
    simp [sampleInterval, min_eq_left h10]
  have hcalls : numProviderCalls (1000 * (k : ℚ)) = k + 1 := by
    unfold numProviderCalls numSamples
    rw [hmin]
    norm_num
  have hle := hB (1000 * (k : ℚ)) hlenpos
  rw [hcalls] at hle
  have hBk : B ≤ k - 10 := by
    have := Int.self_le_toNat B
    omega
  omega

/-- C5 as amended: the sample interval is `min(1000 m, length/10)`; a path
of at most 10 km gets exactly 11 sample points (so short paths still get
about ten samples), and a longer path is sampled at the 1000 m interval,
issuing `⌊length/1000⌋ + 1 ≥ 11` provider calls — at most one sample per
kilometre, a count that grows with path length rather than being bounded
independently of it. -/
theorem sampleInterval_spec (len : ℚ) (hpos : 0 < len) :
    sampleInterval len = min 1000 (len / 10)
    ∧ (len ≤ 10000 → numProviderCalls len = 11)
    ∧ (10000 < len →
        sampleInterval len = 1000
        ∧ numProviderCalls len = ⌊len / 1000⌋ + 1
        ∧ 11 ≤ numProviderCalls len) := by
  refine ⟨rfl, ?_, ?_⟩
  · intro hshort
    have hmin : sampleInterval len = len / 10 := by
      have : len / 10 ≤ 1000 := by linarith
      simp [sampleInterval, min_eq_right this]
    unfold numProviderCalls numSamples
    rw [hmin]
    have hne : len ≠ 0 := ne_of_gt hpos
    have : len / (len / 10) = 10 := by field_simp
    rw [this]
    norm_num
  · intro hlong
    have hmin : sampleInterval len = 1000 := by
      have : (1000 : ℚ) ≤ len / 10 := by linarith
      simp [sampleInterval, min_eq_left this]
    refine ⟨hmin, ?_, ?_⟩
    · unfold numProviderCalls numSamples
      rw [hmin]
    · unfold numProviderCalls numSamples
      rw [hmin]
      have h10 : (10 : ℚ) ≤ len / 1000 := by linarith
      have : (10 : ℤ) ≤ ⌊len / 1000⌋ := by
        exact_mod_cast Int.le_floor.mpr (by exact_mod_cast h10)
      omega

/-- Witness for the amended C5 at a 5 km path. -/
theorem sampleInterval_spec_wit :
    sampleInterval 5000 = min 1000 (5000 / 10)
    ∧ ((5000 : ℚ) ≤ 10000 → numProviderCalls 5000 = 11)
    ∧ ((10000 : ℚ) < 5000 →
        sampleInterval 5000 = 1000
        ∧ numProviderCalls 5000 = ⌊(5000 : ℚ) / 1000⌋ + 1
        ∧ 11 ≤ numProviderCalls 5000) :=
  sampleInterval_spec 5000 (by norm_num)

/-! ## Claim C3 — webhook delivery retry/backoff (`attemptDelivery`,
webhook.service.ts) -/

inductive DeliveryStatus where
  | pending
  | success
  | failed
deriving Repr, DecidableEq

/-- The observable outcome of one `attemptDelivery` run: the final
`delivery.attempts` counter and `delivery.status`, the backoff waits (in
seconds) performed after failed non-final attempts in order, and whether
`webhook.lastTriggered` was assigned. -/
structure DeliveryOutcome where
  attempts : ℕ
  status : DeliveryStatus
  backoffWaits : List ℕ
  lastTriggeredUpdated : Bool
deriving Repr, DecidableEq

/-- The `while (delivery.attempts < maxAttempts)` loop, with
`rem = maxAttempts - attempts` as structural fuel.  `sendOk a` is the
outcome of the HTTP post on attempt number `a`.  On success the status
becomes `success` and `lastTriggered` is set; on failure, if the attempt
was not the last (`rem > 0` after consuming this attempt), the loop sleeps
`2^attempts` seconds (`Math.pow(2, delivery.attempts) * 1000` ms); when
attempts are exhausted the status becomes `failed`. -/
def attemptLoop (sendOk : ℕ → Bool) : ℕ → ℕ → List ℕ → DeliveryOutcome
  | 0, attempts, waits => ⟨attempts, DeliveryStatus.failed, waits, false⟩
  | rem + 1, attempts, waits =>
      let a := attempts + 1
      if sendOk a then ⟨a, DeliveryStatus.success, waits, true⟩
      else attemptLoop sendOk rem a
        (if 0 < rem then waits ++ [2 ^ a] else waits)

/-- `attemptDelivery` with its default `maxAttempts = 3`, starting from the
fresh delivery record (`attempts = 0`, status `pending`). -/
def attemptDelivery (sendOk : ℕ → Bool) : DeliveryOutcome :=
  attemptLoop sendOk 3 0 []

/-- C3: each delivery is attempted at most 3 times; the waits performed are
exactly `2^k` seconds after the `k`-th attempt for each failed non-final
attempt (2 s then 4 s); on success `lastTriggered` is updated and the
successful attempt is the final count; after exhausting all attempts the
status is `failed`, `lastTriggered` is not updated, and the two backoffs
2 s and 4 s were the only waits; the outcome is never left `pending`. -/
theorem attemptDelivery_spec (sendOk : ℕ → Bool) :
    (attemptDelivery sendOk).attempts ≤ 3
    ∧ (attemptDelivery sendOk).backoffWaits
        = (List.range ((attemptDelivery sendOk).attempts - 1)).map
            (fun k => 2 ^ (k + 1))
    ∧ ((attemptDelivery sendOk).status = DeliveryStatus.success →
        (attemptDelivery sendOk).lastTriggeredUpdated = true
        ∧ sendOk (attemptDelivery sendOk).attempts = true)
    ∧ ((attemptDelivery sendOk).status = DeliveryStatus.failed →
        (attemptDelivery sendOk).attempts = 3
        ∧ (attemptDelivery sendOk).lastTriggeredUpdated = false
        ∧ (attemptDelivery sendOk).backoffWaits = [2, 4])
    ∧ ((attemptDelivery sendOk).status = DeliveryStatus.success
        ∨ (attemptDelivery sendOk).status = DeliveryStatus.failed) := by
  cases h1 : sendOk 1 <;> cases h2 : sendOk 2 <;> cases h3 : sendOk 3 <;>
    simp [attemptDelivery, attemptLoop, h1, h2, h3, List.range_succ]

/-- Witness instantiating C3 at the spec's own test scenario: an endpoint
that fails twice then succeeds. -/
theorem attemptDelivery_spec_wit :
    (attemptDelivery (fun k => k == 3)).attempts ≤ 3
    ∧ (attemptDelivery (fun k => k == 3)).backoffWaits
        = (List.range ((attemptDelivery (fun k => k == 3)).attempts - 1)).map
            (fun k => 2 ^ (k + 1))
    ∧ ((attemptDelivery (fun k => k == 3)).status = DeliveryStatus.success →
        (attemptDelivery (fun k => k == 3)).lastTriggeredUpdated = true
        ∧ (fun k : ℕ => k == 3) (attemptDelivery (fun k => k == 3)).attempts
            = true)
    ∧ ((attemptDelivery (fun k => k == 3)).status = DeliveryStatus.failed →
        (attemptDelivery (fun k => k == 3)).attempts = 3
        ∧ (attemptDelivery (fun k => k == 3)).lastTriggeredUpdated = false
        ∧ (attemptDelivery (fun k => k == 3)).backoffWaits = [2, 4])
    ∧ ((attemptDelivery (fun k => k == 3)).status = DeliveryStatus.success
        ∨ (attemptDelivery (fun k => k == 3)).status = DeliveryStatus.failed) :=
  attemptDelivery_spec (fun k => k == 3)

/-! ## Claim C10 — `cache.wrap` computes at most once per TTL window
(cache.service.ts) -/

/-- A stored cache entry: `{ data, timestamp, hits }` plus the node-cache
expiry time (absolute, seconds). -/
structure CEntry (α : Type) where
  data : α
  hits : ℕ
  expiry : ℚ
deriving Repr, DecidableEq

/-- The state of `CacheService` over the backing `NodeCache`: the stored
entries, the process-wide default TTL, the `cache` feature flag consulted
by `get`/`set`, and the cumulative counters. -/
structure CacheState (α : Type) where
  entries : List (String × CEntry α)
  stdTTL : ℚ
  enabled : Bool
  statHits : ℕ
  statMisses : ℕ
  statSets : ℕ
deriving Repr, DecidableEq

/-- `NodeCache#get` at time `now`: an entry is live while `now` has not
passed its expiry. -/
def ncGet {α : Type} (s : CacheState α) (key : String) (now : ℚ) :
    Option (CEntry α) :=
  match mapGet s.entries key with
  | some e => if now ≤ e.expiry then some e else none
  | none => none

/-- `NodeCache#set`: store the entry under the key. -/
def ncSet {α : Type} (s : CacheState α) (key : String) (e : CEntry α) :
    CacheState α :=
  { s with entries := mapSet s.entries key e }

/-- `CacheService.get`: `undefined` when the cache feature is disabled;
on a hit, bump the stat and entry hit counters and re-`set` the entry
(which refreshes its expiry to `now + stdTTL`), returning its data; on a
miss bump the miss counter. -/
def svcGet {α : Type} (s : CacheState α) (key : String) (now : ℚ) :
    Option α × CacheState α :=
  if s.enabled = false then (none, s)
  else
    match ncGet s key now with
    | some entry =>
        let entry' : CEntry α :=
          { entry with hits := entry.hits + 1, expiry := now + s.stdTTL }
        (some entry.data,
          { ncSet s key entry' with statHits := s.statHits + 1 })
    | none => (none, { s with statMisses := s.statMisses + 1 })

/-- `CacheService.set`: `false` when disabled; otherwise store a fresh
entry with `hits = 0` and expiry `now` plus the per-call TTL (default:
`stdTTL`). -/
def svcSet {α : Type} (s : CacheState α) (key : String) (value : α)
    (ttl : Option ℚ) (now : ℚ) : Bool × CacheState α :=
  if s.enabled = false then (false, s)
  else
    let e : CEntry α := ⟨value, 0, now + ttl.getD s.stdTTL⟩
    (true, { ncSet s key e with statSets := s.statSets + 1 })

/-- `CacheService.wrap`: return the live entry if any; otherwise invoke
the compute function (modelled by its value `c`, since the claim takes it
idempotent), store and return it.  The third component records whether the
compute function was invoked. -/
def wrap {α : Type} (s : CacheState α) (key : String) (c : α)
    (ttl : Option ℚ) (now : ℚ) : α × CacheState α × Bool :=
  match svcGet s key now with
  | (some v, s') => (v, s', false)
  | (none, s') => (c, (svcSet s' key c ttl now).2, true)

/-- A cache state with the cache feature disabled. -/
def cexCache : CacheState ℕ := ⟨[], 3600, false, 0, 0, 0⟩

/-- C10 fails as stated: when the `cache` feature flag is off (a supported
configuration read by `get`/`set`), two `wrap` calls with the same key at
the same instant both invoke the compute function — more than once per TTL
window. -/
theorem cache_wrap_once_cex :
    (wrap cexCache "k" 7 none 0).2.2 = true
    ∧ (wrap (wrap cexCache "k" 7 none 0).2.1 "k" 7 none 0).2.2 = true := by
  decide

/-- C10 as amended: with the cache feature enabled, two `wrap` calls with
the same key and compute function, the second within the TTL window of the
first (not past the first call's stored or refreshed expiry), invoke the
compute function at most once — the second call does not invoke it — and
the second call's result equals the first's. -/
theorem cache_wrap_once {α : Type} (s : CacheState α) (key : String)
    (c : α) (ttl : Option ℚ) (t1 t2 : ℚ)
    (hen : s.enabled = true)
    (hstd : t2 ≤ t1 + s.stdTTL)
    (httl : t2 ≤ t1 + ttl.getD s.stdTTL) :
    (wrap (wrap s key c ttl t1).2.1 key c ttl t2).1 = (wrap s key c ttl t1).1
    ∧ (wrap (wrap s key c ttl t1).2.1 key c ttl t2).2.2 = false := by
  cases hmg : mapGet s.entries key with
  | none =>
      constructor <;>
        simp [wrap, svcGet, svcSet, ncGet, ncSet, hen, hmg,
          mapGet_mapSet_self, httl]
  | some e =>
      by_cases hlive : t1 ≤ e.expiry
      · constructor <;>
          simp [wrap, svcGet, svcSet, ncGet, ncSet, hen, hmg, hlive,
            mapGet_mapSet_self, hstd]
      · constructor <;>
          simp [wrap, svcGet, svcSet, ncGet, ncSet, hen, hmg, hlive,
            mapGet_mapSet_self, httl]

/-- An enabled cache state for the C10 witness. -/
def witCache : CacheState ℕ := ⟨[], 10, true, 0, 0, 0⟩

/-- Witness for the amended C10: two calls at times 0 and 1 with default
TTL 10. -/
theorem cache_wrap_once_wit :
    (wrap (wrap witCache "k" 42 none 0).2.1 "k" 42 none 1).1
      = (wrap witCache "k" 42 none 0).1
    ∧ (wrap (wrap witCache "k" 42 none 0).2.1 "k" 42 none 1).2.2 = false :=
  cache_wrap_once witCache "k" 42 none 0 1 rfl (by simp [witCache])
    (by simp [witCache])

/-! ## Claim C2 — fail-fast batch: no real execution after the stop flag
(`generateRouteBatch`, batch.service.ts) -/

/-- A per-task outcome: real success, or a failure message (real provider
error or the synthetic stop message). -/
inductive TaskResult where
  | ok
  | err (msg : String)
deriving Repr, DecidableEq

/-- The synthetic failure returned by a task that observes the stop flag. -/
def stopMsg : String := "Batch processing stopped due to previous error"

inductive TaskStatus where
  | notStarted
  | running
  | done (r : TaskResult)
deriving Repr, DecidableEq

/-- The shared state of one batch run: the `shouldStop` flag and the status
of each task (by its original index). -/
structure BatchState where
  stop : Bool
  tasks : List TaskStatus
deriving Repr, DecidableEq

/-- One cooperative scheduling step of the batch executor.  A task body
begins by reading `shouldStop`: if set it completes immediately with the
synthetic failure, otherwise it starts its provider call (`running`).  A
running task later completes with a real outcome; a real failure sets the
shared flag when `failFast` is on.  The PQueue's concurrency limit only
restricts which interleavings occur, so it needs no modelling here. -/
inductive BStep (failFast : Bool) : BatchState → BatchState → Prop where
  | startStopped (s : BatchState) (i : ℕ)
      (h : s.tasks[i]? = some TaskStatus.notStarted)
      (hs : s.stop = true) :
      BStep failFast s
        ⟨s.stop, s.tasks.set i (TaskStatus.done (TaskResult.err stopMsg))⟩
  | startRun (s : BatchState) (i : ℕ)
      (h : s.tasks[i]? = some TaskStatus.notStarted)
      (hs : s.stop = false) :
      BStep failFast s ⟨s.stop, s.tasks.set i TaskStatus.running⟩
  | finishOk (s : BatchState) (i : ℕ)
      (h : s.tasks[i]? = some TaskStatus.running) :
      BStep failFast s ⟨s.stop, s.tasks.set i (TaskStatus.done TaskResult.ok)⟩
  | finishErr (s : BatchState) (i : ℕ) (msg : String)
      (h : s.tasks[i]? = some TaskStatus.running) :
      BStep failFast s
        ⟨s.stop || failFast, s.tasks.set i (TaskStatus.done (TaskResult.err msg))⟩

/-- One step preserves "the flag is set and task `i` is untouched-or-
synthetically-failed". -/
theorem bstep_preserves (failFast : Bool) {s s' : BatchState}
    (hstep : BStep failFast s s') (i : ℕ) (hstop : s.stop = true)
    (hQ : s.tasks[i]? = some TaskStatus.notStarted
      ∨ s.tasks[i]? = some (TaskStatus.done (TaskResult.err stopMsg))) :
    s'.stop = true
    ∧ (s'.tasks[i]? = some TaskStatus.notStarted
      ∨ s'.tasks[i]? = some (TaskStatus.done (TaskResult.err stopMsg))) := by
  cases hstep with
  | startStopped j h hs =>
      refine ⟨hstop, ?_⟩
      by_cases hij : j = i
      · subst hij
        right
        have hlen : j < s.tasks.length :=
          (List.getElem?_eq_some_iff.mp h).1
        rw [List.getElem?_set_self']
        simp [hlen]
      · rwa [List.getElem?_set_ne hij]
  | startRun j h hs => rw [hstop] at hs; cases hs
  | finishOk j h =>
      refine ⟨hstop, ?_⟩
      have hij : j ≠ i := by
        intro hij
        subst hij
        rcases hQ with hq | hq <;> rw [h] at hq <;> cases hq
      rwa [List.getElem?_set_ne hij]
  | finishErr j msg h =>
      have hij : j ≠ i := by
        intro hij
        subst hij
        rcases hQ with hq | hq <;> rw [h] at hq <;> cases hq
      refine ⟨by rw [hstop]; rfl, ?_⟩
      rwa [List.getElem?_set_ne hij]

/-- C2: in a fail-fast batch, from any state in which the shared stop flag
is set and task `i` has not yet started, along every possible continuation
of the run task `i` is never really executed: it never enters the running
state — its status stays not-started or becomes the synthetic
"Batch processing stopped due to previous error" failure — and if the
batch runs to completion its recorded result is exactly that synthetic
failure. -/
theorem batch_failFast_no_exec (failFast : Bool) (s s' : BatchState) (i : ℕ)
    (hsteps : Relation.ReflTransGen (BStep failFast) s s')
    (hstop : s.stop = true)
    (hns : s.tasks[i]? = some TaskStatus.notStarted) :
    (s'.tasks[i]? = some TaskStatus.notStarted
      ∨ s'.tasks[i]? = some (TaskStatus.done (TaskResult.err stopMsg)))
    ∧ s'.tasks[i]? ≠ some TaskStatus.running
    ∧ ((∀ st ∈ s'.tasks, ∃ r, st = TaskStatus.done r) →
        s'.tasks[i]? = some (TaskStatus.done (TaskResult.err stopMsg))) := by
  have hmain : s'.stop = true
      ∧ (s'.tasks[i]? = some TaskStatus.notStarted
        ∨ s'.tasks[i]? = some (TaskStatus.done (TaskResult.err stopMsg))) := by
    induction hsteps with
    | refl => exact ⟨hstop, Or.inl hns⟩
    | tail hab hbc ih => exact bstep_preserves failFast hbc i ih.1 ih.2
  refine ⟨hmain.2, ?_, ?_⟩
  · rcases hmain.2 with hq | hq <;> rw [hq] <;> intro hcon <;>
      simp at hcon
  · intro hdone
    rcases hmain.2 with hq | hq
    · obtain ⟨r, hr⟩ := hdone TaskStatus.notStarted
        (List.mem_iff_getElem?.mpr ⟨i, hq⟩)
      cases hr
    · exact hq

/-- The batch state after task 0 started, really failed ("boom") and set
the fail-fast flag, while task 1 has not yet started. -/
def bStateMid : BatchState :=
  ⟨true, [TaskStatus.done (TaskResult.err "boom"), TaskStatus.notStarted]⟩

/-- The state after task 1 subsequently starts and observes the flag. -/
def bStateEnd : BatchState :=
  ⟨true, [TaskStatus.done (TaskResult.err "boom"),
    TaskStatus.done (TaskResult.err stopMsg)]⟩

/-- Witness for C2 on a concrete two-task fail-fast run. -/
theorem batch_failFast_no_exec_wit :
    (bStateEnd.tasks[1]? = some TaskStatus.notStarted
      ∨ bStateEnd.tasks[1]? = some (TaskStatus.done (TaskResult.err stopMsg)))
    ∧ bStateEnd.tasks[1]? ≠ some TaskStatus.running
    ∧ ((∀ st ∈ bStateEnd.tasks, ∃ r, st = TaskStatus.done r) →
        bStateEnd.tasks[1]? = some (TaskStatus.done (TaskResult.err stopMsg))) :=
  batch_failFast_no_exec true bStateMid bStateEnd 1
    (Relation.ReflTransGen.single (BStep.startStopped bStateMid 1 rfl rfl))
    rfl rfl

/-! ## Claim C6 — coordinate-range validation at the entry points
(validation.middleware.ts, index.ts tool dispatch, batch.service.ts) -/

/-- `LocationSchema`: `lat ∈ [-90, 90]`, `lng ∈ [-180, 180]`. -/
def locationValid (l : Location) : Bool :=
  decide (-90 ≤ l.lat) && decide (l.lat ≤ 90) &&
  decide (-180 ≤ l.lng) && decide (l.lng ≤ 180)

/-- The closed pin-type enumeration of the schemas. -/
def pinTypes : List String :=
  ["poi", "historical", "landmark", "event", "cultural", "natural"]

/-- The travel-profile enumeration of `RouteRequestSchema`. -/
def profiles : List String := ["driving", "walking", "cycling", "wheelchair"]

/-- The arguments of the location-carrying tools, with schema defaults
already applied (Zod fills them before validation of the ranges).  The
batch tool carries its per-item `{location, radius}` requests. -/
inductive ToolArgs where
  | genRoute (start finish : Location) (waypoints : List Location)
      (profile : String) (bufferRadius : ℚ)
  | nearbyContext (location : Location) (radius : ℚ) (types : List String)
      (maxResults : ℚ)
  | createGeoPin (location : Location) (radius : ℚ) (ptype : String)
      (name descr : String)
  | enrichLocation (location : Location) (radius : ℚ)
  | batchEnrichLocations (locations : List (Location × ℚ))
deriving Repr, DecidableEq

/-- Whether `schemaMap` has an entry for the tool: the four singular tools
do; `batch_enrich_locations` (and the other batch tools) do not. -/
def hasSchema : ToolArgs → Bool
  | ToolArgs.genRoute .. => true
  | ToolArgs.nearbyContext .. => true
  | ToolArgs.createGeoPin .. => true
  | ToolArgs.enrichLocation .. => true
  | ToolArgs.batchEnrichLocations .. => false

/-- The Zod schema checks of `validation.middleware.ts`, per tool. -/
def schemaCheck : ToolArgs → Bool
  | ToolArgs.genRoute start finish waypoints profile bufferRadius =>
      locationValid start && locationValid finish
        && waypoints.all locationValid && profiles.contains profile
        && decide (50 ≤ bufferRadius) && decide (bufferRadius ≤ 5000)
  | ToolArgs.nearbyContext location radius types maxResults =>
      locationValid location && decide (10 ≤ radius)
        && decide (radius ≤ 10000) && types.all pinTypes.contains
        && decide (1 ≤ maxResults) && decide (maxResults ≤ 200)
  | ToolArgs.createGeoPin location radius ptype name descr =>
      locationValid location && decide (10 ≤ radius)
        && decide (radius ≤ 5000) && pinTypes.contains ptype
        && decide (1 ≤ name.length) && decide (name.length ≤ 200)
        && decide (1 ≤ descr.length) && decide (descr.length ≤ 2000)
  | ToolArgs.enrichLocation location radius =>
      locationValid location && decide (10 ≤ radius)
        && decide (radius ≤ 5000)
  | ToolArgs.batchEnrichLocations _ => true

/-- `validateToolInput`: without a schema for the tool the arguments are
returned unvalidated (only a warning is logged); with a schema, parse
failure raises an `InvalidParams` error to the caller. -/
def validateToolInput (a : ToolArgs) : Except String ToolArgs :=
  match hasSchema a with
  | false => Except.ok a
  | true =>
      if schemaCheck a then Except.ok a
      else Except.error "Invalid parameters"

/-- All locations contained in a tool's arguments. -/
def argLocations : ToolArgs → List Location
  | ToolArgs.genRoute start finish waypoints _ _ => start :: finish :: waypoints
  | ToolArgs.nearbyContext location _ _ _ => [location]
  | ToolArgs.createGeoPin location _ _ _ _ => [location]
  | ToolArgs.enrichLocation location _ => [location]
  | ToolArgs.batchEnrichLocations locations => locations.map (fun r => r.1)

/-- `enrichLocationBatch` passes each item's location straight to
`osmService.fetchPOIsNearLocation(req.location, req.radius || 500)`. -/
def batchEnrichProviderCalls (locations : List (Location × ℚ)) :
    List Location :=
  locations.map (fun r => r.1)

/-- A schema-validated tool's check passes only if every contained
location is within range. -/
theorem schemaCheck_locations {a : ToolArgs} (hschema : hasSchema a = true)
    (h : schemaCheck a = true) :
    ∀ l ∈ argLocations a, locationValid l = true := by
  cases a with
  | genRoute start finish waypoints profile bufferRadius =>
      simp only [schemaCheck, Bool.and_eq_true, List.all_eq_true] at h
      intro l hl
      simp only [argLocations, List.mem_cons] at hl
      rcases hl with rfl | rfl | hl
      · exact h.1.1.1.1.1
      · exact h.1.1.1.1.2
      · exact h.1.1.1.2 l hl
  | nearbyContext location radius types maxResults =>
      simp only [schemaCheck, Bool.and_eq_true] at h
      intro l hl
      simp only [argLocations, List.mem_singleton] at hl
      subst hl
      exact h.1.1.1.1.1
  | createGeoPin location radius ptype name descr =>
      simp only [schemaCheck, Bool.and_eq_true] at h
      intro l hl
      simp only [argLocations, List.mem_singleton] at hl
      subst hl
      exact h.1.1.1.1.1.1.1
  | enrichLocation location radius =>
      simp only [schemaCheck, Bool.and_eq_true] at h
      intro l hl
      simp only [argLocations, List.mem_singleton] at hl
      subst hl
      exact h.1.1
  | batchEnrichLocations locations => cases hschema

/-- A location far outside the legal latitude range. -/
def badLoc : Location := ⟨999, 0⟩

/-- C6 fails as stated: the batch entry point accepts locations but has no
schema in `schemaMap`, so `validateToolInput` passes a latitude of 999
through unrejected and the batch pipeline hands exactly that location to
the POI provider. -/
theorem location_validation_cex :
    validateToolInput (ToolArgs.batchEnrichLocations [(badLoc, 500)])
      = Except.ok (ToolArgs.batchEnrichLocations [(badLoc, 500)])
    ∧ locationValid badLoc = false
    ∧ badLoc ∈ batchEnrichProviderCalls [(badLoc, 500)] := by
  refine ⟨rfl, by decide, by simp [batchEnrichProviderCalls]⟩

/-- C6 as amended: at the four schema-validated entry points
(`generate_route`, `get_nearby_context`, `create_geopin`,
`enrich_location`), arguments containing a latitude outside [-90, 90] or a
longitude outside [-180, 180] are rejected with a validation error
surfaced immediately to the caller, and arguments that pass validation —
the only ones a handler ever sees, hence the only ones reaching the
spatial index or providers from these tools — contain only in-range
locations.  The batch tools have no schema and perform no location
validation. -/
theorem location_validation (a : ToolArgs) (hschema : hasSchema a = true) :
    ((∃ l ∈ argLocations a, locationValid l = false) →
        validateToolInput a = Except.error "Invalid parameters")
    ∧ (∀ a', validateToolInput a = Except.ok a' →
        ∀ l ∈ argLocations a', locationValid l = true) := by
  constructor
  · rintro ⟨l, hl, hinv⟩
    by_cases hsc : schemaCheck a = true
    · have := schemaCheck_locations hschema hsc l hl
      rw [this] at hinv
      cases hinv
    · simp [validateToolInput, hschema, hsc]
  · intro a' hok
    rw [validateToolInput, hschema] at hok
    by_cases hsc : schemaCheck a = true
    · rw [if_pos hsc] at hok
      cases hok
      exact schemaCheck_locations hschema hsc
    · rw [if_neg hsc] at hok
      cases hok

/-- Witness for the amended C6 at the `enrich_location` tool. -/
theorem location_validation_wit :
    ((∃ l ∈ argLocations (ToolArgs.enrichLocation ⟨200, 0⟩ 500),
        locationValid l = false) →
      validateToolInput (ToolArgs.enrichLocation ⟨200, 0⟩ 500)
        = Except.error "Invalid parameters")
    ∧ (∀ a', validateToolInput (ToolArgs.enrichLocation ⟨200, 0⟩ 500)
          = Except.ok a' →
        ∀ l ∈ argLocations a', locationValid l = true) :=
  location_validation (ToolArgs.enrichLocation ⟨200, 0⟩ 500) rfl

end GeoContext
